import Mathlib

/-!
Verification of the appium configuration-schema core: a shallow embedding of
the schema registry, the config normalizer, the CLI-argument projector, the
config-file loader and the extension-manifest validator, with theorems about
the behaviors the specification claims.

JavaScript values are modelled by `JsVal`; machine details that no claim
touches (Unicode beyond ASCII, floating point numbers) are simplified where
noted in the local doc comments.
-/

set_option autoImplicit false

namespace Appium

/-- A JavaScript value: `undefined`, `null`, booleans, numbers (integers
suffice for this code base), strings, arrays and plain objects (ordered
key-value lists, as JS objects preserve insertion order). -/
inductive JsVal where
  | undefined
  | null
  | bool (b : Bool)
  | num (n : Int)
  | str (s : String)
  | arr (items : List JsVal)
  | obj (fields : List (String × JsVal))
  deriving Repr

namespace JsVal

/-- Structural boolean equality on `JsVal` (written by hand because automatic
derivation does not handle the nested `List` occurrences; the two list
helpers treat the cons case first and fold the empty cases into one
`isEmpty` check). -/
def beq : JsVal → JsVal → Bool
  | undefined, undefined => true
  | null, null => true
  | bool b1, bool b2 => b1 == b2
  | num n1, num n2 => n1 == n2
  | str s1, str s2 => s1 == s2
  | arr l1, arr l2 => beqList l1 l2
  | obj f1, obj f2 => beqFields f1 f2
  | _, _ => false
where
  beqList : List JsVal → List JsVal → Bool
  | [], [] => true
  | v1 :: t1, v2 :: t2 => beq v1 v2 && beqList t1 t2
  | _, _ => false
  beqFields : List (String × JsVal) → List (String × JsVal) → Bool
  | [], [] => true
  | (k1, v1) :: t1, (k2, v2) :: t2 =>
    (k1 == k2 && beq v1 v2) && beqFields t1 t2
  | _, _ => false

/-- Proof term used to build decidable equality from `beq` (kept as a `def`
so the whole decidability setup lives with the data-model definitions). -/
def beq_iff : ∀ a b : JsVal, (beq a b = true ↔ a = b) := by
  apply JsVal.beq.induct
    (fun a b => JsVal.beq.beqList a b = true ↔ a = b)
    (fun a b => JsVal.beq a b = true ↔ a = b)
    (fun a b => JsVal.beq.beqFields a b = true ↔ a = b)
  case case8 =>
    intro t x h1 h2 h3 h4 h5 h6 h7
    cases t <;> cases x <;>
      first
        | (exfalso; solve_by_elim)
        | simp [JsVal.beq]
  case case11 =>
    intro t x h1 h2
    cases t <;> cases x <;>
      first
        | (exfalso; solve_by_elim)
        | simp [JsVal.beq.beqList]
  case case14 =>
    intro t x h1 h2
    rcases t with _ | ⟨⟨q1, w1⟩, r1⟩ <;> rcases x with _ | ⟨⟨q2, w2⟩, r2⟩ <;>
      first
        | (exfalso; solve_by_elim)
        | simp [JsVal.beq.beqFields]
  all_goals (intros; simp_all [JsVal.beq, JsVal.beq.beqList, JsVal.beq.beqFields])

instance : DecidableEq JsVal :=
  fun a b => decidable_of_iff _ (beq_iff a b)

instance {ε α : Type} [DecidableEq ε] [DecidableEq α] : DecidableEq (Except ε α) :=
  fun a b =>
    match a, b with
    | .ok x, .ok y => decidable_of_iff (x = y) (by simp)
    | .error x, .error y => decidable_of_iff (x = y) (by simp)
    | .ok _, .error _ => isFalse (by simp)
    | .error _, .ok _ => isFalse (by simp)

/-- JS nullish test (`undefined` or `null`), the condition for `??`. -/
def nullish : JsVal → Bool
  | undefined => true
  | null => true
  | _ => false

/-- JS truthiness: `undefined`, `null`, `false`, `0` and `""` are falsy;
every object and array (including `[]` and the empty object) is truthy. -/
def truthy : JsVal → Bool
  | undefined => false
  | null => false
  | bool b => b
  | num n => decide (n ≠ 0)
  | str s => decide (s ≠ "")
  | arr _ => true
  | obj _ => true

/-- Model of `lodash.isObject`: arrays and objects are objects (functions do not occur
as data in the modelled code). -/
def isObject : JsVal → Bool
  | arr _ => true
  | obj _ => true
  | _ => false

/-- Nullish coalescing, `a ?? b`. -/
def coalesce (a b : JsVal) : JsVal :=
  if a.nullish then b else a

end JsVal

variable {α : Type}

/-- First-match lookup in an ordered field list (JS property read; `none`
models reading an absent property, i.e. `undefined`). -/
def objGet (fields : List (String × α)) (key : String) : Option α :=
  match fields with
  | [] => none
  | (k, v) :: rest => if k = key then some v else objGet rest key

/-- JS property assignment on an ordered field list: an existing key keeps its
position and takes the new value, a new key is appended. -/
def setKey (fields : List (String × α)) (key : String) (v : α) :
    List (String × α) :=
  match fields with
  | [] => [(key, v)]
  | (k, w) :: rest =>
    if k = key then (k, v) :: rest else (k, w) :: setKey rest key v

/-- Build an object by assigning the pairs left to right into an empty object
(the iteration behavior of `_.mapKeys`: on key collisions the first
occurrence keeps its position and the last occurrence supplies the value). -/
def objFromPairs (pairs : List (String × α)) : List (String × α) :=
  pairs.foldl (fun acc p => setKey acc p.1 p.2) []

/-- Delete an entry by key (`Map.delete`). -/
def delKey (cache : List (String × α)) (key : String) : List (String × α) :=
  cache.filter fun p => decide (p.1 ≠ key)

/-- Model of `_.omit` restricted to plain keys: drop the entries whose key occurs in
`exclude`, keeping the order of the rest. -/
def omitKeys (fields : List (String × α)) (exclude : List String) :
    List (String × α) :=
  fields.filter fun p => decide (p.1 ∉ exclude)

/-! ### `_.camelCase`, restricted to ASCII

The configuration keys this code base handles are ASCII (kebab-case names,
camelCase destination names, numeric indices), so `_.camelCase` is embedded
for ASCII strings: split into words at non-alphanumeric characters and at
lodash's case/digit boundaries, lowercase the first word, capitalize the
rest. -/

def isAsciiLower (c : Char) : Bool := 'a' ≤ c && c ≤ 'z'

def isAsciiUpper (c : Char) : Bool := 'A' ≤ c && c ≤ 'Z'

def isAsciiDigit (c : Char) : Bool := '0' ≤ c && c ≤ '9'

def isWordChar (c : Char) : Bool := isAsciiLower c || isAsciiUpper c || isAsciiDigit c

/-- Word boundary between a previous character `p` and the current character
`c` (with lookahead into `rest`), as in lodash word splitting: break at
lower/digit→upper, at letter↔digit transitions, and inside an uppercase run
right before its last uppercase character when a lowercase follows. -/
def wordBreak (p c : Char) (rest : List Char) : Bool :=
  (isAsciiUpper c && (isAsciiLower p || isAsciiDigit p)) ||
  (isAsciiDigit c && (isAsciiLower p || isAsciiUpper p)) ||
  (isAsciiLower c && isAsciiDigit p) ||
  (isAsciiUpper c && isAsciiUpper p &&
    (match rest with | r :: _ => isAsciiLower r | [] => false))

/-- Split a character list into words; `acc` is the current word, reversed. -/
def wordsGo (acc : List Char) : List Char → List (List Char)
  | [] => if acc.isEmpty then [] else [acc.reverse]
  | c :: cs =>
    if !isWordChar c then
      (if acc.isEmpty then [] else [acc.reverse]) ++ wordsGo [] cs
    else
      match acc with
      | [] => wordsGo [c] cs
      | p :: _ =>
        if wordBreak p c cs then acc.reverse :: wordsGo [c] cs
        else wordsGo (c :: acc) cs

def asciiWords (s : String) : List String :=
  (wordsGo [] s.toList).map fun w => String.mk w

def lowerWord (w : String) : String := String.mk (w.toList.map Char.toLower)

def capitalizeWord (w : String) : String :=
  match w.toList with
  | [] => ""
  | c :: cs => String.mk (Char.toUpper c :: cs.map Char.toLower)

/-- Model of `_.camelCase` (ASCII): first word lowercased, later words
capitalized, concatenated. -/
def camelCase (s : String) : String :=
  match asciiWords s with
  | [] => ""
  | w :: ws => ws.foldl (fun acc v => acc ++ capitalizeWord v) (lowerWord w)

/-! ### The schema catalog

`TypeDecl` distinguishes a missing `type` keyword, a single JSON type
(`type: 'integer'`) and a union (`type: ['string', 'array']`) — the code
branches on `_.isArray(subSchema.type)`. A `PropSchema` carries the keywords
the embedded functions read: `type`, `default` (`JsVal.undefined` when the source
declares none, matching a JS read of an absent property), the custom
`appiumDest` / `appiumAliases` metadata, `enum`, and the child `properties`
(`none` when the node has no `properties` key at all — visible to optional
chaining). Keywords no embedded function reads (`$id`, `title`,
`description`, `minimum`, `maximum`, `items`, `format`, `uniqueItems`,
`$comment`) are elided. -/

inductive TypeDecl where
  | missing
  | one (t : String)
  | many (ts : List String)
  deriving Repr, DecidableEq

inductive PropSchema where
  | mk (type : TypeDecl) (default : JsVal) (appiumDest : Option String)
      (appiumAliases : List String) (enumVals : List JsVal)
      (properties : Option (List (String × PropSchema)))

def PropSchema.type : PropSchema → TypeDecl
  | mk t _ _ _ _ _ => t

def PropSchema.default : PropSchema → JsVal
  | mk _ d _ _ _ _ => d

def PropSchema.appiumDest : PropSchema → Option String
  | mk _ _ d _ _ _ => d

def PropSchema.appiumAliases : PropSchema → List String
  | mk _ _ _ a _ _ => a

def PropSchema.enumVals : PropSchema → List JsVal
  | mk _ _ _ _ e _ => e

def PropSchema.properties : PropSchema → Option (List (String × PropSchema))
  | mk _ _ _ _ _ p => p

/-- First-match lookup of a property node by name. -/
def propGet (props : List (String × PropSchema)) (key : String) : Option PropSchema :=
  objGet props key

/-- The `server` group's child properties of `appium-config-schema.js`,
in source order. Constructor argument order:
type, default, appiumDest, appiumAliases, enum, properties. -/
def serverProperties : List (String × PropSchema) := [
  ("drivers", .mk (.many ["string", "array"]) (.str "") none [] [] none),
  ("plugins", .mk (.many ["string", "array"]) (.str "") none [] [] none),
  ("allow-cors", .mk (.one "boolean") (.bool false) none [] [] none),
  ("address", .mk (.one "string") (.str "0.0.0.0") none ["a"] [] none),
  ("port", .mk (.one "integer") (.num 4723) none ["p"] [] none),
  ("base-path", .mk (.one "string") (.str "") none ["pa"] [] none),
  ("keep-alive-timeout", .mk (.one "integer") (.num 600) none ["ka"] [] none),
  ("callback-address", .mk (.one "string") .undefined none ["ca"] [] none),
  ("callback-port", .mk (.one "integer") (.num 4723) none ["cp"] [] none),
  ("session-override", .mk (.one "boolean") (.bool false) none [] [] none),
  ("log", .mk (.one "string") .undefined (some "logFile") ["g"] [] none),
  ("log-level", .mk (.one "string") (.str "debug") (some "loglevel") []
    [.str "info", .str "info:debug", .str "info:info", .str "info:warn",
     .str "info:error", .str "warn", .str "warn:debug", .str "warn:info",
     .str "warn:warn", .str "warn:error", .str "error", .str "error:debug",
     .str "error:info", .str "error:warn", .str "error:error", .str "debug",
     .str "debug:debug", .str "debug:info", .str "debug:warn",
     .str "debug:error"] none),
  ("log-timestamp", .mk (.one "boolean") (.bool false) none [] [] none),
  ("local-timezone", .mk (.one "boolean") (.bool false) none [] [] none),
  ("log-no-colors", .mk (.one "boolean") (.bool false) none [] [] none),
  ("webhook", .mk (.one "string") .undefined none ["G"] [] none),
  ("nodeconfig", .mk (.many ["object", "string"]) (.str "") none [] [] none),
  ("no-perms-check", .mk (.one "boolean") (.bool false) none [] [] none),
  ("strict-caps", .mk (.one "boolean") (.bool false) none [] [] none),
  ("tmp", .mk (.one "string") .undefined none [] [] none),
  ("trace-dir", .mk (.one "string") .undefined none [] [] none),
  ("debug-log-spacing", .mk (.one "boolean") (.bool false) none [] [] none),
  ("long-stacktrace", .mk (.one "boolean") (.bool false) none [] [] none),
  ("default-capabilities", .mk (.many ["object", "string"]) .undefined none ["dc"] [] none),
  ("relaxed-security", .mk (.one "boolean") (.bool false) none [] [] none),
  ("allow-insecure", .mk (.many ["array", "string"]) (.arr []) none [] [] none),
  ("deny-insecure", .mk (.many ["array", "string"]) (.arr []) none [] [] none)]

/-- Top-level properties of `appium-config-schema.js`. Note `log-filters`,
`driver` and `plugin` have no `properties` keyword at all. -/
def appiumSchemaProperties : List (String × PropSchema) := [
  ("log-filters", .mk (.one "array") .undefined none [] [] none),
  ("server", .mk (.one "object") .undefined none [] [] (some serverProperties)),
  ("driver", .mk (.one "object") .undefined none [] [] none),
  ("plugin", .mk (.one "object") .undefined none [] [] none)]

/-! ### `normalizeConfig` (config-file module, schema-driven revision)

The source computes
`_.mapKeys(_.mapValues(config, cb), topCb)` where `cb` renames the keys of
every object-valued entry and `topCb` renames the top-level keys. -/

/-- The enumeration JS `for...in`/lodash iteration sees: an object's own
fields, an array's elements under the index keys "0", "1", …; primitives
have no enumerable fields (`_.mapValues(1)` is the empty object). -/
def jsFields : JsVal → List (String × JsVal)
  | .obj fs => fs
  | .arr items => (items.enum).map fun p => (toString p.1, p.2)
  | _ => []

/-- Top-level key rename:
`jsonSchema.properties[name]?.appiumDest ?? _.camelCase(name)`. -/
def topRename (name : String) : String :=
  match propGet appiumSchemaProperties name with
  | some node => node.appiumDest.getD (camelCase name)
  | none => camelCase name

/-- Child key rename:
`jsonSchema.properties[group]?.properties[key]?.appiumDest ?? _.camelCase(key)`.
The `?.` guards only the two reads it is attached to, so when the group node
exists but carries no `properties` keyword the chain evaluates
`undefined[key]` and throws a TypeError. -/
def childRename (group key : String) : Except String String :=
  match propGet appiumSchemaProperties group with
  | none => .ok (camelCase key)
  | some node =>
    match node.properties with
    | none => .error "TypeError: cannot read properties of undefined"
    | some props =>
      match propGet props key with
      | none => .ok (camelCase key)
      | some child => .ok (child.appiumDest.getD (camelCase key))

/-- The `_.mapValues` callback: an object-valued (or array-valued) entry has
its keys renamed by `childRename`; any other value passes through. -/
def normalizeValue (name : String) (v : JsVal) : Except String JsVal :=
  if v.isObject then do
    let pairs ← (jsFields v).mapM fun p => do
      let k ← childRename name p.1
      pure (k, p.2)
    pure (JsVal.obj (objFromPairs pairs))
  else pure v

/-- Function `normalizeConfig` of the schema-driven config-file revision. (The guard
that the appium schema is registered always succeeds here, the schema being
statically present.) -/
def normalizeConfig (config : JsVal) : Except String JsVal := do
  let mapped ← (jsFields config).mapM fun p => do
    pure (p.1, ← normalizeValue p.1 p.2)
  pure (JsVal.obj (objFromPairs (mapped.map fun p => (topRename p.1, p.2))))

/-! ### `objectKeysToCamelCase` and the key normalization of
`packages/appium/lib/config-file.js` (schema-less revision) -/

/-- Function `objectKeysToCamelCase`: `_.mapKeys(obj, (value, arg) => _.camelCase(arg))`. -/
def objectKeysToCamelCase (v : JsVal) : JsVal :=
  JsVal.obj (objFromPairs ((jsFields v).map fun p => (camelCase p.1, p.2)))

/-- Constant `CONFIG_GROUPS`, in the insertion order of the source `Set`. -/
def CONFIG_GROUPS : List String := ["server", "plugin", "driver"]

/-- The `normalizeKeys` step of `readConfigFile` in
`packages/appium/lib/config-file.js`: camel-case the top-level keys, then
camel-case the keys under each truthy `CONFIG_GROUPS` entry. -/
def normalizeKeysCamel (config : JsVal) : JsVal :=
  let top := objFromPairs ((jsFields config).map fun p => (camelCase p.1, p.2))
  JsVal.obj (CONFIG_GROUPS.foldl
    (fun fields key =>
      match objGet fields key with
      | some v => if v.truthy then setKey fields key (objectKeysToCamelCase v) else fields
      | none => fields)
    top)

/-! ### The CLI-argument projector (schema-args revision)

`aliasToFlag` takes the optional extension namespace (JS parameter
`prefix`, written `pfx` here, with `""` standing for a missing/falsy
argument). `subSchemaToArgDef` turns one schema property node into the tuple
of flag aliases and `argparse` options; the help text (`description`) is
elided as no verified property concerns it, and the `_.merge` with a caller
override is modelled as applying an opaque caller-supplied patch
function, which is exact for the callers considered here (no overrides). -/

def SHORT_ARG_CUTOFF : Nat := 3

/-- Function `aliasToFlag (alias, prefix)` of the schema-args module:
`if (prefix) alias = prefix + "." + alias;` then a single dash below the
short cutoff, a double dash otherwise. -/
def aliasToFlag (aliasStr : String) (pfx : String) : String :=
  let aliasStr := if pfx ≠ "" then pfx ++ "." ++ aliasStr else aliasStr
  if aliasStr.length < SHORT_ARG_CUTOFF then "-" ++ aliasStr else "--" ++ aliasStr

/-- The fields of the `argparse` options object that the projector writes.
`default` is `JsVal.undefined` while no default has been assigned. -/
structure ArgOpts where
  required : Bool
  dest : String
  action : Option String
  type : Option String
  default : JsVal
  choices : Option (List String)
  deriving Repr, DecidableEq

/-- JS `String(v)` for the enum values that occur in schemas. -/
def displayString : JsVal → String
  | .str s => s
  | .num n => toString n
  | .bool b => if b then "true" else "false"
  | .null => "null"
  | .undefined => "undefined"
  | .arr _ => ""
  | .obj _ => "[object Object]"

structure SubSchemaToArgDefOptions where
  overrides : List (String × (ArgOpts → ArgOpts))
  assignDefaults : Bool
  pfx : String

/-- Function `subSchemaToArgDef (name, subSchema, opts)`. The union-type branch is
embedded with JavaScript's operator precedence, under which
`subSchema.default ?? _.includes(subSchema.type, 'array') ? [] : null`
parses as `(subSchema.default ?? _.includes(...)) ? [] : null`. -/
def subSchemaToArgDef (name : String) (subSchema : PropSchema)
    (opts : SubSchemaToArgDefOptions) : List String × ArgOpts :=
  let aliases :=
    aliasToFlag name opts.pfx ::
      subSchema.appiumAliases.map fun a => aliasToFlag a opts.pfx
  let argOpts : ArgOpts :=
    { required := false
      dest := subSchema.appiumDest.getD (camelCase name)
      action := none
      type := none
      default := .undefined
      choices := none }
  let argOpts :=
    match subSchema.type with
    | .many ts =>
      if opts.assignDefaults then
        { argOpts with
          default :=
            if (JsVal.coalesce subSchema.default (.bool (ts.contains "array"))).truthy
            then .arr [] else .null }
      else argOpts
    | .one "boolean" =>
      let a := { argOpts with action := some "store_true" }
      if opts.assignDefaults then
        { a with default := JsVal.coalesce subSchema.default (.bool false) }
      else a
    | .one "object" =>
      if opts.assignDefaults then
        { argOpts with default := JsVal.coalesce subSchema.default (.obj []) }
      else argOpts
    | .one "array" =>
      if opts.assignDefaults then
        { argOpts with default := JsVal.coalesce subSchema.default (.arr []) }
      else argOpts
    | .one "integer" =>
      let a := { argOpts with type := some "int" }
      if opts.assignDefaults then
        { a with default := JsVal.coalesce subSchema.default .null }
      else a
    | _ =>
      if opts.assignDefaults then
        { argOpts with default := JsVal.coalesce subSchema.default .null }
      else argOpts
  let argOpts :=
    if subSchema.enumVals ≠ [] then
      { argOpts with choices := some (subSchema.enumVals.map displayString) }
    else argOpts
  let patch :=
    match objGet opts.overrides name with
    | some f => some f
    | none => if argOpts.dest ≠ "" then objGet opts.overrides argOpts.dest else none
  (aliases, match patch with | some f => f argOpts | none => argOpts)

/-- Projection `toParserArgs` applied to a foreign (extension) schema: with a `schema`
option and no `property`/`exclude`, `filterSchemaProperties` is
`_.omit(schema.properties, [])`, so the projector maps over the schema's
properties in order. -/
def toParserArgsOnSchema (props : List (String × PropSchema))
    (opts : SubSchemaToArgDefOptions) : List (List String × ArgOpts) :=
  props.map fun p => subSchemaToArgDef p.1 p.2 opts

/-- The per-extension projection of `makeServerExtensionArgs`: project the
registered schema of an extension, prefixing flags with the extension type,
a dash, the extension name and a trailing dash. -/
def makeServerExtensionArgsFor (extType extName : String)
    (props : List (String × PropSchema)) : List (List String × ArgOpts) :=
  toParserArgsOnSchema props
    { overrides := [], assignDefaults := false,
      pfx := extType ++ "-" ++ extName ++ "-" }

/-! ### `getDefaultsFromSchema` of `packages/appium/lib/config-file.js`
(the `_.memoize`d revision) -/

structure GetDefaultsOptions where
  exclude : Option (List String)
  property : Option String
  deriving Repr, DecidableEq

/-- Function `getIncludedSchemaProperties` (with the default empty options object): destructure
`exclude = [], property`; with a truthy `property` read
`schema.properties[property].properties` (an unknown name makes the
unguarded `.properties` read throw; a known name without child properties
yields `undefined`, and `_.omit(undefined, …)` is the empty object); then
omit the excluded keys. -/
def getIncludedSchemaProperties (opts : Option GetDefaultsOptions) :
    Except String (List (String × PropSchema)) :=
  let exclude := (opts.bind (·.exclude)).getD []
  let property := (opts.bind (·.property)).getD ""
  if property ≠ "" then
    match propGet appiumSchemaProperties property with
    | none => .error "TypeError: cannot read properties of undefined"
    | some node => .ok (omitKeys (node.properties.getD []) exclude)
  else
    .ok (omitKeys appiumSchemaProperties exclude)

/-- The memoized function's body: rename each property to the camel case of
`appiumDest ?? key`, take each node's `default`, drop the `undefined` ones. -/
def getDefaultsFromSchema (opts : Option GetDefaultsOptions) :
    Except String (List (String × JsVal)) := do
  let properties ← getIncludedSchemaProperties opts
  let renamed := objFromPairs
    (properties.map fun p => (camelCase (p.2.appiumDest.getD p.1), p.2))
  pure ((renamed.map fun p => (p.1, p.2.default)).filter fun p =>
    decide (p.2 ≠ .undefined))

/-- The memoize key resolver:
``opts ? `${opts.exclude ?? 'all'}-${opts.property ?? 'all'}` : 'all'``
(a JS array interpolates as its elements joined by commas). -/
def memoKey (opts : Option GetDefaultsOptions) : String :=
  match opts with
  | none => "all"
  | some o =>
    (match o.exclude with
     | none => "all"
     | some l => String.intercalate "," l) ++ "-" ++ (o.property.getD "all")

/-- Run a sequence of calls against the `_.memoize`d `getDefaultsFromSchema`
starting from a given cache: a cache hit on the resolver key returns the
cached mapping without recomputation; a miss computes, and `_.memoize`
stores only successfully returned results. -/
def memoizedCalls (cache : List (String × List (String × JsVal))) :
    List (Option GetDefaultsOptions) →
    List (Except String (List (String × JsVal)))
  | [] => []
  | opts :: rest =>
    match objGet cache (memoKey opts) with
    | some r => Except.ok r :: memoizedCalls cache rest
    | none =>
      match getDefaultsFromSchema opts with
      | .ok r => Except.ok r :: memoizedCalls (setKey cache (memoKey opts) r) rest
      | .error e => Except.error e :: memoizedCalls cache rest

/-- The memoized `getDefaultsFromSchema`, observed over a whole sequence of
calls in one process (the module-level cache starts empty). -/
def getDefaultsFromSchemaMemoized (calls : List (Option GetDefaultsOptions)) :
    List (Except String (List (String × JsVal))) :=
  memoizedCalls [] calls

/-! ### `registerSchema` of the schema module (idempotent revision)

The registry models the ajv instance's table of schemas keyed by id.
`ajv.validateSchema(schema)` (one-argument overload) reports through a
property and never throws, so it leaves the model untouched;
`ajv.addSchema` inserts. In this code base a present `$id` is always a
string; a non-string `$id` is treated as not derivable. -/

abbrev Registry := List (String × JsVal)

/-- Lookup `getSchema(id)` — the schema a registered validator wraps. -/
def getSchema (registry : Registry) (id : String) : Option JsVal :=
  objGet registry id

/-- Derivation `id = id ?? rawSchema.$id` (a non-string `$id` does not
derive an id). -/
def derivedSchemaId (rawSchema : JsVal) (idArg : Option String) : Option String :=
  match idArg with
  | some s => some s
  | none =>
    match rawSchema with
    | .obj fields =>
      match objGet fields "$id" with
      | some (.str s) => some s
      | _ => none
    | _ => none

/-- Function `registerSchema (rawSchema, id)`: for an object schema, derive
`id = id ?? rawSchema.$id`; a truthy id that is already registered is left
alone and returned, a fresh one is validated and added; everything else
throws. -/
def registerSchema (registry : Registry) (rawSchema : JsVal) (idArg : Option String) :
    Except String (String × Registry) :=
  if rawSchema.isObject then
    match derivedSchemaId rawSchema idArg with
    | some s =>
      if s ≠ "" then
        match getSchema registry s with
        | some _ => .ok (s, registry)
        | none => .ok (s, registry ++ [(s, rawSchema)])
      else
        .error "Invalid schema; must be an object having a property $id, or the non-empty string id parameter must be provided"
    | none =>
      .error "Invalid schema; must be an object having a property $id, or the non-empty string id parameter must be provided"
  else
    .error "Invalid schema; must be an object having a property $id, or the non-empty string id parameter must be provided"

/-! ### `getConfigProblems` of `packages/appium/lib/driver-config.js` -/

structure Problem where
  err : String
  val : JsVal
  deriving Repr, DecidableEq

def ALLOWED_ARG_SCHEMA_EXTNAMES : List String := [".json", ".js", ".cjs"]

/-- External collaborators of `getConfigProblems`: Node's `path.extname`,
the resolved text of `path.resolve(installSpec, argSchema)` — a pure
function of its arguments and the working directory, consulted only on the
paths where `path.resolve` returns rather than throws — and the combined
`require(schemaPath)` + `registerSchema(..., pkgName)` step, whose only
observable effect here is whether it throws (the `catch` turns that throw
into a problem). -/
structure ManifestEnv where
  extname : String → String
  resolveText : JsVal → String → String
  registerFails : String → JsVal → Bool

/-- A posix-absolute path starts with a slash. -/
def isAbsolutePath (s : String) : Bool :=
  match s.toList with
  | '/' :: _ => true
  | _ => false

/-- Node `path.resolve(installSpec, argSchema)` at the call site of
driver-config.js line 59: arguments are inspected right to left until the
assembled path is absolute, and every inspected argument must be a string.
An absolute `argSchema` therefore never inspects `installSpec`, while a
relative one validates it and throws a TypeError when it is not a string
(the `argSchema` reaching this call is always a string). The resolved text
itself is the environment's `resolveText`. -/
def pathResolve (env : ManifestEnv) (installSpec : JsVal) (argSchema : String) :
    Except String String :=
  if isAbsolutePath argSchema then .ok (env.resolveText installSpec argSchema)
  else
    match installSpec with
    | .str _ => .ok (env.resolveText installSpec argSchema)
    | _ => .error "TypeError: the path argument must be of type string"

/-- Node `path.extname` (posix) on ordinary file names: the suffix starting
at the last dot of the segment after the last slash, and empty when that
segment has no dot, only a leading dot, or is `.` or `..`. -/
def extnameSimple (s : String) : String :=
  let base := (s.toList.reverse.takeWhile fun c => c != '/').reverse
  if base = ['.'] ∨ base = ['.', '.'] then ""
  else
    let pre := base.reverse.takeWhile fun c => c != '.'
    if pre.length + 1 < base.length then String.mk ('.' :: pre.reverse)
    else ""

/-- Reading a property during destructuring: `undefined` and `null` cannot
be destructured (TypeError); any other value yields the property value, or
`undefined` when absent (primitives are wrapped and have none of the
properties read here). -/
def jsField (v : JsVal) (key : String) : Except String JsVal :=
  match v with
  | .undefined => .error "TypeError: cannot destructure"
  | .null => .error "TypeError: cannot destructure"
  | .obj fields => .ok ((objGet fields key).getD .undefined)
  | _ => .ok .undefined

/-- The property value the destructuring yields once the argument is known
non-nullish: the named field of an object, `undefined` otherwise. -/
def jsFieldD (v : JsVal) (key : String) : JsVal :=
  match v with
  | .obj fields => (objGet fields key).getD .undefined
  | _ => .undefined

/-- The schema-field segment of the check body — the only segment that can
throw. The `path.resolve` call sits outside the `try`, so its TypeError
escapes the function; only a failure of
`registerSchema(require(schemaPath), pkgName)` is caught and turned into a
problem. -/
def schemaFieldProblems (env : ManifestEnv)
    (argSchema installSpec pkgName : JsVal) : Except String (List Problem) :=
  match argSchema with
  | .undefined => .ok []
  | .str s =>
    if ALLOWED_ARG_SCHEMA_EXTNAMES.contains (env.extname s) then do
      let schemaPath ← pathResolve env installSpec s
      if env.registerFails schemaPath pkgName then
        pure [⟨"Unable to register schema at " ++ schemaPath, argSchema⟩]
      else
        pure []
    else
      .ok [⟨"Schema file has unsupported extension. Allowed: " ++
        String.intercalate ", " ALLOWED_ARG_SCHEMA_EXTNAMES, argSchema⟩]
  | _ => .ok [⟨"Incorrectly formatted schema field.", argSchema⟩]

/-- The check body of `getConfigProblems` after the destructuring, over the
five destructured fields. `automationNames` mirrors the source: a list
initialized empty on every call, consulted for the duplicate check, and
appended to just before the schema segment, whose problems — when that
segment returns instead of throwing — are pushed onto the same
accumulator. -/
def checkDriverFields (env : ManifestEnv)
    (platformNames automationName argSchema installSpec pkgName : JsVal) :
    Except String (List Problem) := do
  let automationNames : List JsVal := []
  let problems : List Problem :=
    match platformNames with
    | .arr items =>
      if items.isEmpty then [⟨"Empty platformNames list.", platformNames⟩]
      else items.filterMap fun p =>
        match p with
        | .str _ => none
        | _ => some ⟨"Incorrectly formatted platformName.", p⟩
    | _ => [⟨"Missing or incorrect supported platformNames list.", platformNames⟩]
  let problems := problems ++
    (match automationName with
     | .str _ => []
     | _ => [⟨"Missing or incorrect automationName", automationName⟩])
  let problems := problems ++
    (if automationNames.contains automationName then
      [⟨"Multiple drivers claim support for the same automationName",
        automationName⟩]
     else [])
  let _ := automationNames ++ [automationName]
  let schemaProblems ← schemaFieldProblems env argSchema installSpec pkgName
  pure (problems ++ schemaProblems)

/-- Method `getConfigProblems (driver)`: destructure the entry (throws on a
nullish argument), then run the accumulated checks, which can themselves
throw from the unguarded `path.resolve`. -/
def getConfigProblems (env : ManifestEnv) (driver : JsVal) :
    Except String (List Problem) := do
  let platformNames ← jsField driver "platformNames"
  let automationName ← jsField driver "automationName"
  let argSchema ← jsField driver "schema"
  let installSpec ← jsField driver "installSpec"
  let pkgName ← jsField driver "pkgName"
  checkDriverFields env platformNames automationName argSchema
    installSpec pkgName

/-- A validation batch processed strictly in input order: `getConfigProblems`
applied to each manifest entry in turn. -/
def getConfigProblemsBatch (env : ManifestEnv) (drivers : List JsVal) :
    List (Except String (List Problem)) :=
  drivers.map (getConfigProblems env)

/-! ### `readConfigFile` of `packages/appium/lib/config-file.js` with the raw
source-text cache

The module-level `rawConfig` map is threaded explicitly. Loading an explicit
path through `lilconfig` is described by a `LoadSpec`: the file may be
absent (`ENOENT`, rewritten message), empty (lilconfig returns an
`isEmpty` result without calling a loader), or present, handled either by
`jsonLoader` — which caches the raw text and then runs `JSON.parse`, whose
`SyntaxError` is rewritten — or by `yamlLoader` (no caching). Ajv
validation and `betterAjvErrors` are caller-supplied collaborators. -/

abbrev RawCache := List (String × String)

inductive LoadSpec where
  | enoent
  | jsonFile (raw : String) (parsed : Option JsVal)
  | yamlFile (parsed : JsVal)
  | emptyFile

/-- External collaborators of `readConfigFile`: the compiled Ajv validator
(returning its error list) and `betterAjvErrors` (receiving the config, the
errors and the cached raw text, returning the `reason` value). -/
structure ReadEnv where
  validate : JsVal → List JsVal
  format : JsVal → List JsVal → Option String → JsVal

/-- Shape of the object `readConfigFile` resolves with. `errors` is `none`
when the result never went through validation (the bare locate result), and
`reason`/`isEmpty` are `none` when those keys were never set. -/
structure ReadResult where
  config : JsVal
  filepath : JsVal
  isEmpty : Option Bool
  errors : Option (List JsVal)
  reason : Option JsVal
  deriving Repr, DecidableEq

/-- Function `readConfigFile (filepath, opts)` for an explicit path: load
(caching raw JSON text first, so a `SyntaxError` escapes with the cache
entry still present), then — only for a truthy, non-empty config — validate,
format a reason when errors exist, optionally normalize, and delete the
cache entry in the `finally` block around that phase. -/
def readConfigFile (env : ReadEnv) (fp : String) (spec : LoadSpec)
    (normalizeKeys pretty : Bool) (cache : RawCache) :
    Except String ReadResult × RawCache :=
  match spec with
  | .enoent =>
    (.error ("Config file not found at user-provided path: " ++ fp), cache)
  | .jsonFile raw parsed =>
    let cache := setKey cache fp raw
    (match parsed with
     | none =>
       -- the SyntaxError message rewrite; the parser detail appended after
       -- "invalid:" in the source is external text and elided here
       (.error ("Config file at user-provided path " ++ fp ++ " is invalid"),
        cache)
     | some cfg => readConfigFileMain env fp cfg normalizeKeys pretty cache)
  | .yamlFile cfg => readConfigFileMain env fp cfg normalizeKeys pretty cache
  | .emptyFile =>
    (.ok { config := .undefined, filepath := .str fp, isEmpty := some true,
           errors := none, reason := none }, cache)
where
  /-- The body after a successful load: the `result.config && !result.isEmpty`
  guard, then the try/finally phase. The `pretty` flag only selects the
  format mode, which the abstract `format` collaborator absorbs. -/
  readConfigFileMain (env : ReadEnv) (fp : String) (cfg : JsVal)
      (normalizeKeys _pretty : Bool) (cache : RawCache) :
      Except String ReadResult × RawCache :=
    if cfg.truthy then
      let errors := env.validate cfg
      let reason : Option JsVal :=
        if errors ≠ [] then
          let r := env.format cfg errors (objGet cache fp)
          if r.truthy then some r else none
        else none
      let outCfg := if normalizeKeys then normalizeKeysCamel cfg else cfg
      (.ok { config := outCfg, filepath := .str fp, isEmpty := none,
             errors := some errors, reason := reason },
       delKey cache fp)
    else
      (.ok { config := cfg, filepath := .str fp, isEmpty := none,
             errors := none, reason := none }, cache)

/-! ### Heap model of `normalizeConfig` for the mutation claim

To talk about mutation at all, the input document is placed in an explicit
heap: an object is an address into a list of field tables, a field holds a
primitive or a reference. `normalizeConfigH` is the same source function —
same `topRename`/`childRename`, same `_.mapValues`/`_.mapKeys` structure —
with the object constructions of `_.mapValues`/`_.mapKeys` performed as
allocations, which is what lodash does: both combinators build fresh
objects and never write to their argument. -/

inductive HVal where
  | prim (v : JsVal)
  | ref (addr : Nat)
  deriving Repr, DecidableEq

abbrev HObj := List (String × HVal)

abbrev Heap := List HObj

/-- Allocate a fresh object, returning the extended heap and its address. -/
def Heap.alloc (h : Heap) (o : HObj) : Heap × Nat := (h ++ [o], h.length)

/-- Read the field table at an address. -/
def Heap.read (h : Heap) (a : Nat) : HObj := (h.get? a).getD []

/-- The `_.mapValues` callback on the heap: a primitive passes through; a
reference has its target's keys renamed through `childRename` into a
freshly allocated object. -/
def normalizeValueH (h : Heap) (name : String) (v : HVal) :
    Except String HVal × Heap :=
  match v with
  | .prim p => (.ok (.prim p), h)
  | .ref r =>
    match (h.read r).mapM (fun p => do pure ((← childRename name p.1), p.2)) with
    | .error e => (.error e, h)
    | .ok pairs =>
      let (h2, addr) := h.alloc (objFromPairs pairs)
      (.ok (.ref addr), h2)

/-- The `_.mapValues` pass over the top-level entries, threading the heap;
a thrown `TypeError` aborts the iteration. -/
def mapValuesH (h : Heap) : List (String × HVal) →
    Except String (List (String × HVal)) × Heap
  | [] => (.ok [], h)
  | (k, v) :: rest =>
    match normalizeValueH h k v with
    | (.error e, h2) => (.error e, h2)
    | (.ok w, h2) =>
      match mapValuesH h2 rest with
      | (.ok ws, h3) => (.ok ((k, w) :: ws), h3)
      | (.error e, h3) => (.error e, h3)

/-- Heap form of `normalizeConfig`: map the values, then allocate the
`_.mapKeys` result with the top-level keys renamed. -/
def normalizeConfigH (h : Heap) (a : Nat) : Except String Nat × Heap :=
  match mapValuesH h (h.read a) with
  | (.ok mapped, h2) =>
    let (h3, addr) := h2.alloc (objFromPairs (mapped.map fun p => (topRename p.1, p.2)))
    (.ok addr, h3)
  | (.error e, h2) => (.error e, h2)

/-! ### Concrete instantiations used by counterexamples and witnesses -/

/-- A concrete `ManifestEnv` with Node's `path.extname` on ordinary file
names; the theorems quantifying over environments do not depend on these
choices. -/
def manifestEnvNode : ManifestEnv :=
  { extname := extnameSimple
    resolveText := fun _ s => s
    registerFails := fun _ _ => false }

/-- A well-formed driver manifest entry claiming `uiautomator2`. -/
def uiautomator2Entry : JsVal :=
  .obj [("platformNames", .arr [.str "Android"]),
        ("automationName", .str "uiautomator2")]

/-- A concrete `ReadEnv`; the theorems quantifying over environments do not
depend on these choices. -/
def readEnvTrivial : ReadEnv :=
  { validate := fun _ => []
    format := fun _ _ _ => .str "reason" }

/-- Options excluding the two server properties `port` and `address`. -/
def gdOptsA : Option GetDefaultsOptions :=
  some { exclude := some ["port", "address"], property := some "server" }

/-- Options excluding the single (non-existent) property named
`port,address` — a different request whose memoize key collides with
`gdOptsA`. -/
def gdOptsB : Option GetDefaultsOptions :=
  some { exclude := some ["port,address"], property := some "server" }

/-! ## Library lemmas about the object-table operations -/

theorem objGet_setKey_self (fields : List (String × α)) (k : String) (v : α) :
    objGet (setKey fields k v) k = some v := by
  induction fields with
  | nil => simp [setKey, objGet]
  | cons p rest ih =>
    obtain ⟨a, b⟩ := p
    by_cases h : a = k <;> simp [setKey, objGet, h, ih]

theorem objGet_setKey_ne (fields : List (String × α)) (k k' : String) (v : α)
    (h : k' ≠ k) : objGet (setKey fields k v) k' = objGet fields k' := by
  induction fields with
  | nil => simp [setKey, objGet, Ne.symm h]
  | cons p rest ih =>
    obtain ⟨a, b⟩ := p
    by_cases ha : a = k
    · subst ha
      simp [setKey, objGet, Ne.symm h]
    · by_cases ha' : a = k'
      · subst ha'
        simp [setKey, objGet, ha, h]
      · simp [setKey, objGet, ha, ha', ih]

theorem objGet_delKey_self (cache : List (String × α)) (k : String) :
    objGet (delKey cache k) k = none := by
  induction cache with
  | nil => simp [delKey, objGet]
  | cons p rest ih =>
    obtain ⟨a, b⟩ := p
    by_cases h : a = k
    · simpa [delKey, h] using ih
    · simpa [delKey, objGet, h] using ih

theorem objGet_append (l₁ l₂ : List (String × α)) (k : String) :
    objGet (l₁ ++ l₂) k =
      (match objGet l₁ k with
       | some v => some v
       | none => objGet l₂ k) := by
  induction l₁ with
  | nil => simp [objGet]
  | cons p rest ih =>
    obtain ⟨a, b⟩ := p
    by_cases h : a = k <;> simp [objGet, h, ih]

theorem setKey_eq_append (fields : List (String × α)) (k : String) (v : α)
    (h : objGet fields k = none) : setKey fields k v = fields ++ [(k, v)] := by
  induction fields with
  | nil => simp [setKey]
  | cons p rest ih =>
    obtain ⟨a, b⟩ := p
    by_cases ha : a = k
    · simp [objGet, ha] at h
    · simp [objGet, ha] at h
      simp [setKey, ha, ih h]

theorem foldl_setKey_append (l : List (String × α)) :
    ∀ acc : List (String × α),
    (∀ p ∈ l, objGet acc p.1 = none) →
    (l.map Prod.fst).Nodup →
    l.foldl (fun a p => setKey a p.1 p.2) acc = acc ++ l := by
  induction l with
  | nil => intro acc _ _; simp
  | cons p rest ih =>
    intro acc hdisj hnd
    obtain ⟨k, v⟩ := p
    rw [List.map_cons, List.nodup_cons] at hnd
    have hk : objGet acc k = none := hdisj (k, v) (by simp)
    simp only [List.foldl_cons, setKey_eq_append acc k v hk]
    rw [ih (acc ++ [(k, v)])]
    · simp
    · intro q hq
      have hq1 : objGet acc q.1 = none := hdisj q (by simp [hq])
      have hqk : q.1 ≠ k := fun he =>
        hnd.1 (List.mem_map.mpr ⟨q, hq, he⟩)
      rw [objGet_append]
      simp [hq1, objGet, Ne.symm hqk]
    · exact hnd.2

theorem objFromPairs_eq_self (l : List (String × α))
    (hnd : (l.map Prod.fst).Nodup) : objFromPairs l = l := by
  simpa using foldl_setKey_append l [] (by simp [objGet]) hnd

theorem objGet_eq_some_of_mem (l : List (String × α)) (k : String) (v : α)
    (hnd : (l.map Prod.fst).Nodup) (hm : (k, v) ∈ l) : objGet l k = some v := by
  induction l with
  | nil => simp at hm
  | cons p rest ih =>
    obtain ⟨a, b⟩ := p
    rw [List.map_cons, List.nodup_cons] at hnd
    rcases List.mem_cons.mp hm with h | h
    · obtain ⟨rfl, rfl⟩ : k = a ∧ v = b := by simpa [Prod.ext_iff] using h
      simp [objGet]
    · have hak : a ≠ k := fun he =>
        hnd.1 (List.mem_map.mpr ⟨(k, v), h, he.symm⟩)
      simp [objGet, hak, ih hnd.2 h]

theorem mapM_ok_forall₂ {β γ : Type} {f : β → Except String γ} :
    ∀ {l : List β} {l' : List γ}, l.mapM f = .ok l' →
      List.Forall₂ (fun a b => f a = .ok b) l l' := by
  intro l
  induction l with
  | nil =>
    intro l' h
    simp [List.mapM, List.mapM.loop, pure, Except.pure] at h
    subst h
    exact List.Forall₂.nil
  | cons a rest ih =>
    intro l' h
    rw [List.mapM_cons] at h
    cases hfa : f a with
    | error e => rw [hfa] at h; simp [bind, Except.bind] at h
    | ok b =>
      rw [hfa] at h
      cases hrest : rest.mapM f with
      | error e => rw [hrest] at h; simp [bind, Except.bind] at h
      | ok bs =>
        rw [hrest] at h
        simp [bind, Except.bind, pure, Except.pure] at h
        subst h
        exact List.Forall₂.cons hfa (ih hrest)

/-! ## The extension-manifest validator (claims about `getConfigProblems`) -/

/-- A string extended to the right never equals a string with a different
first character. -/
theorem unable_ne_dup (x : String) :
    "Unable to register schema at " ++ x ≠
      "Multiple drivers claim support for the same automationName" := by
  intro h
  have hd : ("Unable to register schema at ".data ++ x.data) =
      "Multiple drivers claim support for the same automationName".data :=
    congrArg String.data h
  simp at hd

/-- No problem the schema segment can return carries the
duplicate-automationName message. -/
theorem schemaFieldProblems_no_dup (env : ManifestEnv)
    (sc inst pk : JsVal) (sps : List Problem) (p : Problem)
    (hok : schemaFieldProblems env sc inst pk = .ok sps) (hp : p ∈ sps) :
    p.err ≠ "Multiple drivers claim support for the same automationName" := by
  cases sc with
  | undefined =>
    simp only [schemaFieldProblems, Except.ok.injEq] at hok
    subst hok; simp at hp
  | str s =>
    by_cases hext : env.extname s ∈ ALLOWED_ARG_SCHEMA_EXTNAMES
    · cases hres : pathResolve env inst s with
      | error e =>
        simp [schemaFieldProblems, hext, hres, bind, Except.bind] at hok
      | ok t =>
        by_cases hreg : env.registerFails t pk = true
        · simp [schemaFieldProblems, hext, hres, hreg, bind, Except.bind,
            pure, Except.pure] at hok
          subst hok
          simp at hp
          subst hp
          exact unable_ne_dup _
        · simp [schemaFieldProblems, hext, hres, hreg, bind, Except.bind,
            pure, Except.pure] at hok
          subst hok
          simp at hp
    · simp [schemaFieldProblems, hext] at hok
      subst hok
      simp at hp
      subst hp
      show ("Schema file has unsupported extension. Allowed: " ++
        ", ".intercalate ALLOWED_ARG_SCHEMA_EXTNAMES) ≠ _
      decide
  | null => simp [schemaFieldProblems] at hok; subst hok; simp at hp; subst hp; simp
  | bool b => simp [schemaFieldProblems] at hok; subst hok; simp at hp; subst hp; simp
  | num n => simp [schemaFieldProblems] at hok; subst hok; simp at hp; subst hp; simp
  | arr a => simp [schemaFieldProblems] at hok; subst hok; simp at hp; subst hp; simp
  | obj fs => simp [schemaFieldProblems] at hok; subst hok; simp at hp; subst hp; simp

/-- No problem the check body can return carries the duplicate-automationName
message: the guard consults the just-initialized empty list. -/
theorem checkDriverFields_no_dup (env : ManifestEnv)
    (pn an sc inst pk : JsVal) (ps : List Problem) (p : Problem)
    (hok : checkDriverFields env pn an sc inst pk = .ok ps)
    (hp : p ∈ ps) :
    p.err ≠ "Multiple drivers claim support for the same automationName" := by
  cases hs : schemaFieldProblems env sc inst pk with
  | error e =>
    simp [checkDriverFields, hs, bind, Except.bind] at hok
  | ok sps =>
    simp only [checkDriverFields, hs, bind, Except.bind, pure, Except.pure,
      List.contains_nil, Bool.false_eq_true, if_false, List.append_nil,
      Except.ok.injEq] at hok
    subst hok
    simp only [List.mem_append] at hp
    rcases hp with (hp | hp) | hp
    · cases pn with
      | arr items =>
        by_cases he : items.isEmpty <;> simp [he] at hp
        · subst hp; simp
        · obtain ⟨q, hq, hfq⟩ := hp
          cases q <;> simp at hfq <;> (subst hfq; simp)
      | undefined => simp at hp; subst hp; simp
      | null => simp at hp; subst hp; simp
      | bool b => simp at hp; subst hp; simp
      | num n => simp at hp; subst hp; simp
      | str s => simp at hp; subst hp; simp
      | obj fs => simp at hp; subst hp; simp
    · cases an <;> simp at hp <;> (subst hp; simp)
    · exact schemaFieldProblems_no_dup env sc inst pk sps p hs hp

/-- The schema segment returns (rather than throws) whenever every reached
`path.resolve` call does: when the schema field is a string with an allowed
extension, resolving it against `installSpec` must succeed. -/
theorem schemaFieldProblems_ok (env : ManifestEnv) (sc inst pk : JsVal)
    (hsafe : ∀ s : String, sc = .str s →
      env.extname s ∈ ALLOWED_ARG_SCHEMA_EXTNAMES →
      ∃ t, pathResolve env inst s = .ok t) :
    ∃ sps, schemaFieldProblems env sc inst pk = .ok sps := by
  cases sc with
  | str s =>
    by_cases hext : env.extname s ∈ ALLOWED_ARG_SCHEMA_EXTNAMES
    · obtain ⟨t, ht⟩ := hsafe s rfl hext
      by_cases hreg : env.registerFails t pk = true
      · exact ⟨[⟨"Unable to register schema at " ++ t, .str s⟩], by
          simp [schemaFieldProblems, hext, ht, hreg, bind, Except.bind,
            pure, Except.pure]⟩
      · exact ⟨[], by
          simp [schemaFieldProblems, hext, ht, hreg, bind, Except.bind,
            pure, Except.pure]⟩
    · exact ⟨[⟨"Schema file has unsupported extension. Allowed: " ++
          String.intercalate ", " ALLOWED_ARG_SCHEMA_EXTNAMES, .str s⟩], by
        simp [schemaFieldProblems, hext]⟩
  | undefined => exact ⟨[], rfl⟩
  | null => exact ⟨_, rfl⟩
  | bool b => exact ⟨_, rfl⟩
  | num n => exact ⟨_, rfl⟩
  | arr a => exact ⟨_, rfl⟩
  | obj fs => exact ⟨_, rfl⟩

/-- The check body returns (rather than throws) whenever its schema segment
does. -/
theorem checkDriverFields_ok (env : ManifestEnv)
    (pn an sc inst pk : JsVal)
    (hsafe : ∀ s : String, sc = .str s →
      env.extname s ∈ ALLOWED_ARG_SCHEMA_EXTNAMES →
      ∃ t, pathResolve env inst s = .ok t) :
    ∃ ps, checkDriverFields env pn an sc inst pk = .ok ps := by
  obtain ⟨sps, hs⟩ := schemaFieldProblems_ok env sc inst pk hsafe
  cases hc : checkDriverFields env pn an sc inst pk with
  | ok ps => exact ⟨ps, rfl⟩
  | error e =>
    simp [checkDriverFields, hs, bind, Except.bind, pure, Except.pure] at hc

/-- On a non-nullish argument the destructuring succeeds and the call is the
check body over the five read fields. -/
theorem getConfigProblems_eq_check (env : ManifestEnv) (e : JsVal)
    (he : e.nullish = false) :
    getConfigProblems env e =
      checkDriverFields env (jsFieldD e "platformNames")
        (jsFieldD e "automationName") (jsFieldD e "schema")
        (jsFieldD e "installSpec") (jsFieldD e "pkgName") := by
  cases e <;> first | rfl | simp [JsVal.nullish] at he

/-- C1: the spec says that in a batch validated in input order, a second
entry repeating an earlier entry's `automationName` is flagged with the
duplicate problem. In the code `automationNames` is a list local to each
`getConfigProblems` call, initialized empty and consulted before the sole
push, so the duplicate problem is unreachable: no call ever returns it, and
a batch of two well-formed entries both declaring `uiautomator2` yields no
problem on either entry. -/
theorem duplicate_automation_names_never_flagged :
    (∀ (env : ManifestEnv) (e : JsVal) (ps : List Problem),
      getConfigProblems env e = .ok ps →
      ∀ p ∈ ps,
        p.err ≠ "Multiple drivers claim support for the same automationName") ∧
    getConfigProblemsBatch manifestEnvNode
        [uiautomator2Entry, uiautomator2Entry] = [.ok [], .ok []] := by
  constructor
  · intro env e ps h p hp
    cases e <;>
      simp only [getConfigProblems, jsField, bind, Except.bind,
        reduceCtorEq] at h <;>
      exact checkDriverFields_no_dup _ _ _ _ _ _ _ _ h hp
  · decide

/-- Witness for `duplicate_automation_names_never_flagged`: an entry with
problems, none of which is the duplicate problem. -/
theorem duplicate_automation_names_never_flagged_witness :
    (Problem.mk "Missing or incorrect supported platformNames list."
        JsVal.undefined).err ≠
      "Multiple drivers claim support for the same automationName" :=
  duplicate_automation_names_never_flagged.1 manifestEnvNode (JsVal.obj [])
    [⟨"Missing or incorrect supported platformNames list.", JsVal.undefined⟩,
     ⟨"Missing or incorrect automationName", JsVal.undefined⟩] (by decide)
    ⟨"Missing or incorrect supported platformNames list.", JsVal.undefined⟩
    (by decide)

/-- C7 counterexample: the claim says the manifest check never throws for
any input. Destructuring the parameter throws a TypeError on `undefined`
and `null` (as the module's own test expects), and `path.resolve`, called
outside the `try` at driver-config.js line 59, throws a TypeError when a
relative schema path with an allowed extension meets an absent (hence
non-string) `installSpec`. -/
theorem getConfigProblems_throws :
    getConfigProblems manifestEnvNode JsVal.undefined =
      .error "TypeError: cannot destructure" ∧
    getConfigProblems manifestEnvNode JsVal.null =
      .error "TypeError: cannot destructure" ∧
    getConfigProblems manifestEnvNode
        (.obj [("platformNames", .arr [.str "Android"]),
               ("automationName", .str "x"),
               ("schema", .str "x.json")]) =
      .error "TypeError: the path argument must be of type string" :=
  ⟨rfl, rfl, by decide⟩

/-- C7 amended: for every non-nullish input (objects, but also primitives),
provided the unguarded `path.resolve` cannot throw — whenever the schema
field is a string with an allowed extension, resolving it against the
`installSpec` field succeeds (so in particular whenever `installSpec` is a
string, or the schema path is absolute, or no allowed-extension schema
string is present) — the check returns an accumulated problem list and
never throws, and all independent checks are evaluated: an entry failing
the platformNames, the automationName and the schema check at once reports
all three problems. -/
theorem getConfigProblems_total_when_resolve_safe :
    (∀ (env : ManifestEnv) (e : JsVal), e.nullish = false →
      (∀ s : String, jsFieldD e "schema" = .str s →
        env.extname s ∈ ALLOWED_ARG_SCHEMA_EXTNAMES →
        ∃ t, pathResolve env (jsFieldD e "installSpec") s = .ok t) →
      ∃ ps, getConfigProblems env e = .ok ps) ∧
    getConfigProblems manifestEnvNode
        (.obj [("platformNames", .str "notanarray"), ("schema", .arr [])]) =
      .ok [⟨"Missing or incorrect supported platformNames list.",
            .str "notanarray"⟩,
           ⟨"Missing or incorrect automationName", .undefined⟩,
           ⟨"Incorrectly formatted schema field.", .arr []⟩] := by
  constructor
  · intro env e he hsafe
    rw [getConfigProblems_eq_check env e he]
    exact checkDriverFields_ok env _ _ _ _ _ hsafe
  · decide

/-- Witness for `getConfigProblems_total_when_resolve_safe` at a primitive,
whose schema field is `undefined`, and at a complete entry pairing a
relative schema path with a string `installSpec`. -/
theorem getConfigProblems_total_when_resolve_safe_witness :
    (JsVal.num 3).nullish = false ∧
    (∃ ps, getConfigProblems manifestEnvNode (JsVal.num 3) = .ok ps) ∧
    ∃ ps, getConfigProblems manifestEnvNode
        (.obj [("platformNames", .arr [.str "Android"]),
               ("automationName", .str "x"),
               ("schema", .str "x.json"),
               ("installSpec", .str "/tmp/pkg")]) = .ok ps :=
  ⟨rfl,
   getConfigProblems_total_when_resolve_safe.1 manifestEnvNode (JsVal.num 3)
     rfl (by intro s hs _; simp [jsFieldD] at hs),
   getConfigProblems_total_when_resolve_safe.1 manifestEnvNode
     (.obj [("platformNames", .arr [.str "Android"]),
            ("automationName", .str "x"),
            ("schema", .str "x.json"),
            ("installSpec", .str "/tmp/pkg")])
     rfl
     (by intro s hs _
         simp [jsFieldD, objGet] at hs
         subst hs
         exact ⟨"x.json", by decide⟩)⟩

/-! ## The schema registry (claim about `registerSchema`) -/

/-- C5: re-registering an id that is already in the table is a silent no-op
returning the existing id and leaving the table untouched; a non-object
schema throws; an object schema from which no id is derivable (no `id`
argument and no usable `$id`) throws. -/
theorem registerSchema_idempotent_and_errors :
    (∀ (reg : Registry) (rawSchema : JsVal) (idArg : Option String)
        (s : String) (v : JsVal),
      rawSchema.isObject = true →
      derivedSchemaId rawSchema idArg = some s →
      s ≠ "" →
      getSchema reg s = some v →
      registerSchema reg rawSchema idArg = .ok (s, reg)) ∧
    (∀ (reg : Registry) (rawSchema : JsVal) (idArg : Option String),
      rawSchema.isObject = false →
      ∃ e, registerSchema reg rawSchema idArg = .error e) ∧
    (∀ (reg : Registry) (rawSchema : JsVal),
      rawSchema.isObject = true →
      derivedSchemaId rawSchema none = none →
      ∃ e, registerSchema reg rawSchema none = .error e) := by
  refine ⟨?_, ?_, ?_⟩
  · intro reg raw idArg s v hobj hid hs hreg
    simp [registerSchema, hobj, hid, hs, hreg]
  · intro reg raw idArg hobj
    refine ⟨"Invalid schema; must be an object having a property $id, or the non-empty string id parameter must be provided", ?_⟩
    simp [registerSchema, hobj]
  · intro reg raw hobj hid
    refine ⟨"Invalid schema; must be an object having a property $id, or the non-empty string id parameter must be provided", ?_⟩
    simp [registerSchema, hobj, hid]

/-- Witness for `registerSchema_idempotent_and_errors`: a registry already
holding `x` is returned unchanged; a string schema and an id-less object
schema throw. -/
theorem registerSchema_idempotent_and_errors_witness :
    registerSchema [("x", JsVal.obj [])] (JsVal.obj [("$id", JsVal.str "x")])
        none = .ok ("x", [("x", JsVal.obj [])]) ∧
    (∃ e, registerSchema [] (JsVal.str "nope") none = .error e) ∧
    (∃ e, registerSchema [] (JsVal.obj []) none = .error e) :=
  ⟨registerSchema_idempotent_and_errors.1 [("x", JsVal.obj [])]
      (JsVal.obj [("$id", JsVal.str "x")]) none "x" (JsVal.obj []) rfl rfl
      (by decide) rfl,
   registerSchema_idempotent_and_errors.2.1 [] (JsVal.str "nope") none rfl,
   registerSchema_idempotent_and_errors.2.2 [] (JsVal.obj []) rfl rfl⟩

/-! ## The config-file loader (claim about the raw-text cache) -/

/-- C2 counterexample: loading a file whose content is invalid JSON caches
the raw text in `jsonLoader` and then rejects from `JSON.parse`; that
rejection propagates before the try/finally of `readConfigFile` is entered,
so the call settles (rejects) with the cache entry still present —
contradicting the claim that the entry is removed on every exit path. -/
theorem readConfigFile_cache_retained_on_syntax_error :
    (readConfigFile readEnvTrivial "appium.json" (.jsonFile "bad json" none)
        true true []).2 = [("appium.json", "bad json")] ∧
    (readConfigFile readEnvTrivial "appium.json" (.jsonFile "bad json" none)
        true true []).1 =
      .error ("Config file at user-provided path appium.json is invalid") :=
  ⟨rfl, rfl⟩

/-- C2 amended: the unconditional eviction covers exactly the
validate-format-normalize phase: whenever the loader returns a parsed,
truthy config, the cache entry for the path is removed before
`readConfigFile` returns, on every exit path of that phase; when loading
itself throws, the entry survives. -/
theorem readConfigFile_evicts_after_successful_load :
    ∀ (env : ReadEnv) (fp raw : String) (cfg : JsVal) (nk p : Bool)
      (cache : RawCache), cfg.truthy = true →
      objGet (readConfigFile env fp (.jsonFile raw (some cfg)) nk p cache).2
        fp = none := by
  intro env fp raw cfg nk p cache ht
  simp [readConfigFile, readConfigFile.readConfigFileMain, ht,
    objGet_delKey_self]

/-- Witness for `readConfigFile_evicts_after_successful_load`. -/
theorem readConfigFile_evicts_after_successful_load_witness :
    (JsVal.obj [("server", JsVal.obj [])]).truthy = true ∧
    objGet (readConfigFile readEnvTrivial "appium.json"
        (.jsonFile "raw" (some (JsVal.obj [("server", JsVal.obj [])])))
        true true []).2 "appium.json" = none :=
  ⟨rfl, readConfigFile_evicts_after_successful_load readEnvTrivial
    "appium.json" "raw" (JsVal.obj [("server", JsVal.obj [])]) true true []
    rfl⟩

/-! ## The memoized defaults computation (claim about `getDefaultsFromSchema`) -/

/-- C9 counterexample: two different option objects — excluding the two
properties `port` and `address` versus excluding the single (non-existent)
property named `port,address` — collide on the resolver key
`port,address-server`, so the second call returns the first call's cached
mapping instead of its own direct recomputation (which would contain
`port` and `address`). -/
theorem getDefaults_memoized_key_collision :
    memoKey gdOptsA = memoKey gdOptsB ∧
    gdOptsA ≠ gdOptsB ∧
    getDefaultsFromSchemaMemoized [gdOptsA, gdOptsB] =
      [getDefaultsFromSchema gdOptsA, getDefaultsFromSchema gdOptsA] ∧
    getDefaultsFromSchema gdOptsA ≠ getDefaultsFromSchema gdOptsB := by
  refine ⟨rfl, by decide, rfl, by decide⟩

/-- Memoization is transparent as long as no two calls share a resolver key
and nothing in the cache collides with them. -/
theorem memoizedCalls_eq_map_of_nodup :
    ∀ (calls : List (Option GetDefaultsOptions))
      (cache : List (String × List (String × JsVal))),
      (∀ c ∈ calls, objGet cache (memoKey c) = none) →
      (calls.map memoKey).Nodup →
      memoizedCalls cache calls = calls.map getDefaultsFromSchema := by
  intro calls
  induction calls with
  | nil => intro cache _ _; rfl
  | cons c rest ih =>
    intro cache hmiss hnd
    rw [List.map_cons, List.nodup_cons] at hnd
    have hc : objGet cache (memoKey c) = none := hmiss c (by simp)
    cases hres : getDefaultsFromSchema c with
    | ok r =>
      rw [List.map_cons, hres]
      simp only [memoizedCalls, hc, hres]
      rw [ih (setKey cache (memoKey c) r) ?_ hnd.2]
      intro c' hc'
      have hne : memoKey c' ≠ memoKey c := fun he =>
        hnd.1 (List.mem_map.mpr ⟨c', hc', he⟩)
      rw [objGet_setKey_ne _ _ _ _ hne]
      exact hmiss c' (by simp [hc'])
    | error e =>
      rw [List.map_cons, hres]
      simp only [memoizedCalls, hc, hres]
      rw [ih cache (fun c' hc' => hmiss c' (by simp [hc'])) hnd.2]

/-- C9 amended: the memoized `getDefaultsFromSchema` agrees with direct
recomputation on every call whose resolver key
`<exclude joined by commas>-<property>` differs from every other call's key;
only colliding keys (such as `gdOptsA`/`gdOptsB`) share one result. -/
theorem getDefaultsFromSchemaMemoized_transparent_without_collisions :
    ∀ (calls : List (Option GetDefaultsOptions)),
      (calls.map memoKey).Nodup →
      getDefaultsFromSchemaMemoized calls =
        calls.map getDefaultsFromSchema := by
  intro calls hnd
  exact memoizedCalls_eq_map_of_nodup calls []
    (fun c _ => rfl) hnd

/-- Witness for
`getDefaultsFromSchemaMemoized_transparent_without_collisions`. -/
theorem getDefaultsFromSchemaMemoized_transparent_witness :
    getDefaultsFromSchemaMemoized [gdOptsA, gdOptsB, none].tail =
      [gdOptsB, none].map getDefaultsFromSchema :=
  getDefaultsFromSchemaMemoized_transparent_without_collisions
    [gdOptsB, none] (by decide)

/-! ## The CLI-argument projector (claims about defaults and flags) -/

/-- C3: for a union-typed node the spec's table attaches the declared
default when one is declared. Under JavaScript operator precedence the
source expression `subSchema.default ?? _.includes(...) ? [] : null`
replaces every declared default: the schema's own `server.drivers` node
(union type, declared default `''`) projects with `default: null`, and a
union node with a truthy declared default projects with `default: []`. The
no-declared-default fallback (`[]` when `array` is accepted, else `null`)
does hold. -/
theorem subSchemaToArgDef_union_replaces_declared_default :
    objGet serverProperties "drivers" =
      some (.mk (.many ["string", "array"]) (.str "") none [] [] none) ∧
    (subSchemaToArgDef "drivers"
        (.mk (.many ["string", "array"]) (.str "") none [] [] none)
        { overrides := [], assignDefaults := true, pfx := "" }).2.default =
      JsVal.null ∧
    JsVal.null ≠ JsVal.str "" ∧
    (subSchemaToArgDef "x"
        (.mk (.many ["string", "array"]) (.str "declared") none [] [] none)
        { overrides := [], assignDefaults := true, pfx := "" }).2.default =
      JsVal.arr [] ∧
    (subSchemaToArgDef "x"
        (.mk (.many ["object", "string"]) .undefined none [] [] none)
        { overrides := [], assignDefaults := true, pfx := "" }).2.default =
      JsVal.null ∧
    (subSchemaToArgDef "x"
        (.mk (.many ["array", "string"]) .undefined none [] [] none)
        { overrides := [], assignDefaults := true, pfx := "" }).2.default =
      JsVal.arr [] := by
  refine ⟨rfl, rfl, by decide, rfl, rfl, rfl⟩

/-- C6: the spec says extension-namespaced flags have the form
`--<extensionKind>-<extensionName>-<propertyOrAlias>` with nothing inserted
between the namespace and the name. `aliasToFlag` joins the caller's
`<kind>-<name>-` namespace and the alias with a `.`, so the primary flag
and every alias flag carry a stray `-.` — they are double-dash flags, but
not of the claimed shape. -/
theorem extension_flags_carry_stray_dot :
    (makeServerExtensionArgsFor "driver" "fake"
        [("foo", .mk (.one "string") .undefined none ["fa"] [] none)]).map
        Prod.fst =
      [["--driver-fake-.foo", "--driver-fake-.fa"]] ∧
    ("--driver-fake-.foo" : String) ≠ "--" ++ ("driver" ++ "-" ++ "fake" ++ "-") ++ "foo" ∧
    ("--driver-fake-.fa" : String) ≠ "--" ++ ("driver" ++ "-" ++ "fake" ++ "-") ++ "fa" := by
  refine ⟨rfl, by decide, by decide⟩

/-! ## The config normalizer (claims about `normalizeConfig`) -/

/-- C8 counterexample: normalizing twice is not the same as normalizing
once for every document. The key `LOG` (unknown to the schema) camel-cases
to `log` on the first pass; the second pass then finds the schema node
`server.log` and renames `log` to its `appiumDest` `logFile`. -/
theorem normalizeConfig_not_idempotent :
    normalizeConfig (.obj [("server", .obj [("LOG", .num 1)])]) =
      .ok (.obj [("server", .obj [("log", .num 1)])]) ∧
    normalizeConfig (.obj [("server", .obj [("log", .num 1)])]) =
      .ok (.obj [("server", .obj [("logFile", .num 1)])]) ∧
    (JsVal.obj [("server", .obj [("log", .num 1)])]) ≠
      .obj [("server", .obj [("logFile", .num 1)])] := by
  refine ⟨by decide, by decide, by decide⟩

/-- C8 amended: the second application changes no key the first application
produced from a schema-known key. For every schema-known top-level key the
top-level rename is idempotent; `server` (the only group whose children are
renamed without throwing) maps to itself, and for every schema-known server
child key the child rename succeeds and its output is a fixed point of the
child rename. Keys unknown to the schema can keep moving, as the
counterexample shows. -/
theorem normalize_renames_idempotent_on_schema_known_keys :
    (∀ k ∈ appiumSchemaProperties.map Prod.fst,
      topRename (topRename k) = topRename k) ∧
    topRename "server" = "server" ∧
    (∀ c ∈ serverProperties.map Prod.fst,
      (childRename "server" c).toOption.isSome = true ∧
      (childRename "server" c).bind (childRename "server") =
        childRename "server" c) := by
  refine ⟨by decide, rfl, by decide⟩

/-- Witness for `normalize_renames_idempotent_on_schema_known_keys` at the
keys `log-filters` and `log-level` (both renamed non-trivially). -/
theorem normalize_renames_idempotent_witness :
    topRename (topRename "log-filters") = topRename "log-filters" ∧
    (childRename "server" "log-level").bind (childRename "server") =
      childRename "server" "log-level" :=
  ⟨normalize_renames_idempotent_on_schema_known_keys.1 "log-filters"
      (by decide),
   (normalize_renames_idempotent_on_schema_known_keys.2.2 "log-level"
      (by decide)).2⟩

/-- Transport of a `Forall₂` relation along a left member. -/
theorem forall₂_mem_left {β γ : Type} {R : β → γ → Prop} :
    ∀ {l : List β} {l' : List γ}, List.Forall₂ R l l' →
      ∀ a ∈ l, ∃ b ∈ l', R a b := by
  intro l l' h
  induction h with
  | nil => intro a ha; simp at ha
  | cons hr _ ih =>
    intro a ha
    rcases List.mem_cons.mp ha with rfl | ha
    · exact ⟨_, by simp, hr⟩
    · obtain ⟨b, hb, hrb⟩ := ih a ha
      exact ⟨b, by simp [hb], hrb⟩

/-- Two maps agree along a `Forall₂` relation that forces them pointwise. -/
theorem forall₂_map_eq {β γ δ : Type} {R : β → γ → Prop} (f : β → δ)
    (g : γ → δ) (hfg : ∀ a b, R a b → f a = g b) :
    ∀ {l : List β} {l' : List γ}, List.Forall₂ R l l' →
      l.map f = l'.map g := by
  intro l l' h
  induction h with
  | nil => rfl
  | cons hr _ ih => simp [hfg _ _ hr, ih]

/-- A successful `normalizeConfig` on an object splits into a successful
`_.mapValues` pass and the `_.mapKeys` assembly. -/
theorem normalizeConfig_ok_decomp (fields out : List (String × JsVal))
    (hok : normalizeConfig (.obj fields) = .ok (.obj out)) :
    ∃ mapped,
      (fields.mapM fun p => do
        pure (p.1, ← normalizeValue p.1 p.2)) = .ok mapped ∧
      out = objFromPairs (mapped.map fun p => (topRename p.1, p.2)) := by
  unfold normalizeConfig at hok
  cases hm : (fields.mapM fun p => do
      pure (p.1, ← normalizeValue p.1 p.2)) with
  | error e =>
    rw [show jsFields (.obj fields) = fields from rfl] at hok
    rw [hm] at hok
    simp [bind, Except.bind] at hok
  | ok mapped =>
    rw [show jsFields (.obj fields) = fields from rfl] at hok
    rw [hm] at hok
    simp [bind, Except.bind, pure, Except.pure] at hok
    exact ⟨mapped, rfl, hok.symm⟩

/-- A successful per-entry computation of the `_.mapValues` pass pins the
key and the value. -/
theorem entry_ok_decomp (k : String) (v : JsVal) (b : String × JsVal)
    (h : ((normalizeValue k v) >>= fun w => pure (k, w)) = .ok b) :
    ∃ w, normalizeValue k v = .ok w ∧ b = (k, w) := by
  cases hv : normalizeValue k v with
  | error e => rw [hv] at h; simp [bind, Except.bind] at h
  | ok w =>
    rw [hv] at h
    simp [bind, Except.bind, pure, Except.pure] at h
    exact ⟨w, rfl, h.symm⟩

/-- A successful `normalizeValue` on an object value is the inner
`_.mapKeys` over successfully renamed children. -/
theorem normalizeValue_ok_obj (k : String) (kvs : List (String × JsVal))
    (w : JsVal) (h : normalizeValue k (.obj kvs) = .ok w) :
    ∃ pairs,
      (kvs.mapM fun q => do
        pure ((← childRename k q.1), q.2)) = .ok pairs ∧
      w = .obj (objFromPairs pairs) := by
  unfold normalizeValue at h
  rw [show (JsVal.obj kvs).isObject = true from rfl] at h
  simp only [if_true] at h
  cases hm : (kvs.mapM fun q => do
      pure ((← childRename k q.1), q.2)) with
  | error e =>
    rw [show jsFields (.obj kvs) = kvs from rfl] at h
    rw [hm] at h
    simp [bind, Except.bind] at h
  | ok pairs =>
    rw [show jsFields (.obj kvs) = kvs from rfl] at h
    rw [hm] at h
    simp [bind, Except.bind, pure, Except.pure] at h
    exact ⟨pairs, rfl, h.symm⟩

/-- A successful inner-rename step keeps the child value and records the
renamed child key. -/
theorem inner_entry_ok (k : String) (q r : String × JsVal)
    (h : ((childRename k q.1) >>= fun c => pure (c, q.2)) = .ok r) :
    childRename k q.1 = .ok r.1 ∧ r.2 = q.2 := by
  cases hc : childRename k q.1 with
  | error e => rw [hc] at h; simp [bind, Except.bind] at h
  | ok c =>
    rw [hc] at h
    simp [bind, Except.bind, pure, Except.pure] at h
    rw [← h]
    exact ⟨rfl, rfl⟩

/-- C4 counterexample: the claim says child keys are renamed only under
top-level keys the schema marks as config groups, and that any other
top-level value passes through unchanged. The code renames children under
the unknown top-level key `foo`, and for a schema-known non-group key
(`log-filters`, whose node has no child properties) an array value does not
pass through — the call throws. -/
theorem normalizeConfig_not_group_scoped :
    normalizeConfig (.obj [("foo", .obj [("some-key", .num 1)])]) =
      .ok (.obj [("foo", .obj [("someKey", .num 1)])]) ∧
    objGet appiumSchemaProperties "foo" = none ∧
    (JsVal.obj [("someKey", .num 1)]) ≠ .obj [("some-key", .num 1)] ∧
    normalizeConfig (.obj [("log-filters", .arr [.str "x"])]) =
      .error "TypeError: cannot read properties of undefined" := by
  refine ⟨by decide, rfl, by decide, by decide⟩

/-- C4 amended: `normalizeConfig` renames child keys under every top-level
key whose value is an object (unknown keys included, with the camelCase
fallback), never renames anything deeper than the second level (each child
value is passed through untouched), passes non-object values through
unchanged, and throws when a schema-known top-level key without child
properties holds a non-empty object or array. Stated for documents whose
renamed top-level keys do not collide. -/
theorem normalizeConfig_renames_under_every_object_value :
    (∀ (fields out : List (String × JsVal)) (k : String) (v : JsVal),
      normalizeConfig (.obj fields) = .ok (.obj out) →
      (fields.map fun p => topRename p.1).Nodup →
      (k, v) ∈ fields →
      (v.isObject = false → objGet out (topRename k) = some v) ∧
      (∀ kvs, v = .obj kvs →
        ∃ pairs, objGet out (topRename k) = some (.obj (objFromPairs pairs)) ∧
          pairs.map Prod.snd = kvs.map Prod.snd ∧
          List.Forall₂
            (fun (q r : String × JsVal) => childRename k q.1 = .ok r.1)
            kvs pairs)) ∧
    (∀ (fields : List (String × JsVal)) (k : String) (v : JsVal)
        (node : PropSchema),
      (k, v) ∈ fields → v.isObject = true → jsFields v ≠ [] →
      propGet appiumSchemaProperties k = some node →
      node.properties = none →
      ∀ res, normalizeConfig (.obj fields) ≠ .ok res) := by
  constructor
  · intro fields out k v hok hnd hm
    obtain ⟨mapped, hmapM, hout⟩ := normalizeConfig_ok_decomp fields out hok
    have hfa := mapM_ok_forall₂ hmapM
    obtain ⟨b, hb, hgb⟩ := forall₂_mem_left hfa (k, v) hm
    obtain ⟨w, hw, rfl⟩ := entry_ok_decomp k v b hgb
    have hkeys : (fields.map fun p => topRename p.1) =
        (mapped.map fun p => topRename p.1) := by
      refine forall₂_map_eq _ _ ?_ hfa
      intro a b hab
      obtain ⟨w', _, rfl⟩ := entry_ok_decomp a.1 a.2 b hab
      rfl
    have hnd' : ((mapped.map fun p => (topRename p.1, p.2)).map
        Prod.fst).Nodup := by
      rw [show (mapped.map fun p => (topRename p.1, p.2)).map Prod.fst =
          mapped.map fun p => topRename p.1 from by simp]
      exact hkeys ▸ hnd
    have hout' : out = mapped.map fun p => (topRename p.1, p.2) := by
      rw [hout, objFromPairs_eq_self _ hnd']
    have hmem : (topRename k, w) ∈
        (mapped.map fun p => (topRename p.1, p.2)) :=
      List.mem_map.mpr ⟨(k, w), hb, rfl⟩
    have hget : objGet out (topRename k) = some w := by
      rw [hout']
      exact objGet_eq_some_of_mem _ _ _ hnd' hmem
    constructor
    · intro hnobj
      have : normalizeValue k v = pure v := by
        unfold normalizeValue
        rw [hnobj]
        simp
      rw [this] at hw
      simp [pure, Except.pure] at hw
      rw [hget, hw]
    · rintro kvs rfl
      obtain ⟨pairs, hpm, rfl⟩ := normalizeValue_ok_obj k kvs w hw
      have hfa2 := mapM_ok_forall₂ hpm
      refine ⟨pairs, hget, ?_, ?_⟩
      · exact (forall₂_map_eq Prod.snd Prod.snd
          (fun a b h => ((inner_entry_ok k a b h).2).symm) hfa2).symm
      · exact hfa2.imp fun {q r} h => (inner_entry_ok k q r h).1
  · intro fields k v node hm hobj hne hprop hnone res hok
    have hcr : ∀ c, childRename k c =
        .error "TypeError: cannot read properties of undefined" := by
      intro c
      unfold childRename
      rw [hprop]
      simp only []
      rw [hnone]
    have hnv : ∃ e, normalizeValue k v = .error e := by
      cases hjf : jsFields v with
      | nil => exact absurd hjf hne
      | cons q rest =>
        refine ⟨"TypeError: cannot read properties of undefined", ?_⟩
        unfold normalizeValue
        rw [hobj]
        simp only [if_true]
        rw [hjf, List.mapM_cons, hcr]
        simp [bind, Except.bind]
    obtain ⟨e, hnv⟩ := hnv
    unfold normalizeConfig at hok
    rw [show jsFields (.obj fields) = fields from rfl] at hok
    cases hm2 : (fields.mapM fun p => do
        pure (p.1, ← normalizeValue p.1 p.2)) with
    | error e2 =>
      rw [hm2] at hok
      simp [bind, Except.bind] at hok
    | ok mapped =>
      have hfa := mapM_ok_forall₂ hm2
      obtain ⟨b, _, hgb⟩ := forall₂_mem_left hfa (k, v) hm
      obtain ⟨w, hw, rfl⟩ := entry_ok_decomp k v b hgb
      rw [hnv] at hw
      simp at hw

/-- Witness for `normalizeConfig_renames_under_every_object_value`: a
non-object value survives under its renamed key, and a `driver` group with
a non-empty object value makes the call throw. -/
theorem normalizeConfig_renames_witness :
    objGet [("port", JsVal.num 1)] (topRename "port") =
      some (JsVal.num 1) ∧
    normalizeConfig (.obj [("driver", .obj [("a", .num 1)])]) ≠
      .ok JsVal.null :=
  ⟨(normalizeConfig_renames_under_every_object_value.1
      [("port", JsVal.num 1)] [("port", JsVal.num 1)] "port" (JsVal.num 1)
      (by decide) (by decide) (by decide)).1 (by decide),
   normalizeConfig_renames_under_every_object_value.2
      [("driver", .obj [("a", .num 1)])] "driver" (.obj [("a", .num 1)])
      (.mk (.one "object") .undefined none [] [] none)
      (by decide) (by decide) (by decide) rfl rfl JsVal.null⟩

/-! ## The heap model (claim that `normalizeConfig` never mutates input) -/

/-- `normalizeValueH` only allocates: its output heap extends its input
heap. -/
theorem normalizeValueH_heap (h : Heap) (name : String) (v : HVal) :
    ∃ t, (normalizeValueH h name v).2 = h ++ t := by
  cases v with
  | prim p => exact ⟨[], by simp [normalizeValueH]⟩
  | ref r =>
    simp only [normalizeValueH]
    cases hm : (h.read r).mapM (fun p => do
        pure ((← childRename name p.1), p.2)) with
    | error e => exact ⟨[], by simp⟩
    | ok pairs => exact ⟨[objFromPairs pairs], by simp [Heap.alloc]⟩

/-- The `_.mapValues` pass only allocates. -/
theorem mapValuesH_heap (l : List (String × HVal)) :
    ∀ h : Heap, ∃ t, (mapValuesH h l).2 = h ++ t := by
  induction l with
  | nil => intro h; exact ⟨[], by simp [mapValuesH]⟩
  | cons p rest ih =>
    intro h
    obtain ⟨k, v⟩ := p
    obtain ⟨t1, ht1⟩ := normalizeValueH_heap h k v
    cases hv : normalizeValueH h k v with
    | mk res h2 =>
      rw [hv] at ht1
      simp only at ht1
      subst ht1
      cases res with
      | error e => exact ⟨t1, by simp [mapValuesH, hv]⟩
      | ok w =>
        obtain ⟨t2, ht2⟩ := ih (h ++ t1)
        cases hrest : mapValuesH (h ++ t1) rest with
        | mk res2 h3 =>
          rw [hrest] at ht2
          simp only at ht2
          subst ht2
          cases res2 with
          | error e => exact ⟨t1 ++ t2, by simp [mapValuesH, hv, hrest]⟩
          | ok ws => exact ⟨t1 ++ t2, by simp [mapValuesH, hv, hrest]⟩

/-- `normalizeConfigH` only allocates, and a successful result address lies
beyond the input heap. -/
theorem normalizeConfigH_heap (h : Heap) (a : Nat) :
    (∃ t, (normalizeConfigH h a).2 = h ++ t) ∧
    (∀ r, (normalizeConfigH h a).1 = .ok r → h.length ≤ r) := by
  obtain ⟨t, ht⟩ := mapValuesH_heap (h.read a) h
  cases hv : mapValuesH h (h.read a) with
  | mk res h2 =>
    rw [hv] at ht
    simp only at ht
    subst ht
    cases res with
    | error e =>
      constructor
      · exact ⟨t, by simp [normalizeConfigH, hv]⟩
      · intro r hr
        simp [normalizeConfigH, hv] at hr
    | ok mapped =>
      constructor
      · refine ⟨t ++ [objFromPairs (mapped.map fun p => (topRename p.1, p.2))], ?_⟩
        simp [normalizeConfigH, hv, Heap.alloc]
      · intro r hr
        simp [normalizeConfigH, hv, Heap.alloc] at hr
        omega

/-- C10: `normalizeConfig` never mutates its input. In the heap model of
the same source function, every address that existed before the call still
holds exactly the object (all its keys and values) it held before — the
input document and its nested group objects included — and on success the
returned document lives at a fresh address, allocated by the call. -/
theorem normalizeConfigH_frame :
    ∀ (h : Heap) (a : Nat),
      (∀ i, i < h.length → (normalizeConfigH h a).2[i]? = h[i]?) ∧
      (∀ r, (normalizeConfigH h a).1 = .ok r → h.length ≤ r) := by
  intro h a
  obtain ⟨⟨t, ht⟩, hfresh⟩ := normalizeConfigH_heap h a
  refine ⟨?_, hfresh⟩
  intro i hi
  rw [ht, List.getElem?_append_left hi]

/-- Witness for `normalizeConfigH_frame` on a one-object heap. -/
theorem normalizeConfigH_frame_witness :
    (normalizeConfigH [[("allow-cors", HVal.prim (.bool true))]] 0).2[0]? =
      [[("allow-cors", HVal.prim (.bool true))]][0]? ∧
    [[("allow-cors", HVal.prim (.bool true))]].length ≤ 1 :=
  ⟨(normalizeConfigH_frame _ 0).1 0 (by decide),
   (normalizeConfigH_frame _ 0).2 1 (by decide)⟩

end Appium
